import Mathlib

/-!
Shallow embedding of the core of the tutoring client (`src/services/gptService.ts`
and the appended `src/services/rateLimiter.ts`): the multi-tier rate limiter,
the bounded-retry wrapper, the streaming response decoder, and the
option-shuffling helper.  External effects are made explicit parameters:
`Date.now()` becomes a `now : Nat` argument, `JSON.parse` becomes an abstract
oracle `parse : String → Option ParsedPayload` (`none` models a thrown
exception or a non-object result), `Math.random`-driven indices become a
function `rand : Nat → Nat`, and the `onChunk` sink is modelled by recording
every emitted snapshot in an `emissions` list.
-/

namespace Edu

/-! ## Rate limiter (`rateLimiter.ts`) -/

/-- One counter for one time granularity; mirrors `interface RateLimit`
(`max`, `windowMs`, `current`, `resetTime`). -/
structure RateLimit where
  max : Nat
  windowMs : Nat
  current : Nat
  resetTime : Nat
deriving DecidableEq

/-- The three windows of one identity; mirrors `interface UserRateLimits`. -/
structure UserRateLimits where
  minutely : RateLimit
  hourly : RateLimit
  daily : RateLimit
deriving DecidableEq

/-- Mirrors `RateLimiter.createLimit(max, windowMs)`; `Date.now()` is the
explicit `now` argument. -/
def createLimit (max windowMs now : Nat) : RateLimit :=
  { max := max, windowMs := windowMs, current := 0, resetTime := now + windowMs }

/-- Mirrors `RateLimiter.createUserLimits()`: caps 15/minute, 250/hour,
500/day. -/
def createUserLimits (now : Nat) : UserRateLimits :=
  { minutely := createLimit 15 (60 * 1000) now
    hourly := createLimit 250 (60 * 60 * 1000) now
    daily := createLimit 500 (24 * 60 * 60 * 1000) now }

/-- First step of `RateLimiter.updateLimit`: the lazy reset
(`if (now > limit.resetTime) { limit.current = 0; limit.resetTime = now + limit.windowMs }`). -/
def resetIfExpired (now : Nat) (limit : RateLimit) : RateLimit :=
  if limit.resetTime < now then
    { limit with current := 0, resetTime := now + limit.windowMs }
  else limit

/-- Mirrors `RateLimiter.updateLimit(limit)`: lazy reset, then deny when
`current >= max`, otherwise increment and approve.  The returned window is
the post-call value of the mutated `limit` object (the reset sticks even on
denial). -/
def updateLimit (now : Nat) (limit : RateLimit) : Bool × RateLimit :=
  let limit := resetIfExpired now limit
  if limit.max ≤ limit.current then (false, limit)
  else (true, { limit with current := limit.current + 1 })

/-- The limiter's `limits: Map<string, UserRateLimits>` as a function. -/
def RLMap : Type := String → Option UserRateLimits

/-- Models `Map.set` on the identity map. -/
def setLimits (limits : RLMap) (sessionId : String) (ul : UserRateLimits) : RLMap :=
  fun s => if s = sessionId then some ul else limits s

/-- Mirrors `RateLimiter.checkRateLimit(sessionId)`.  The source inserts a
fresh `UserRateLimits` when the identity is unknown and then evaluates
`updateLimit(minutely) && updateLimit(hourly) && updateLimit(daily)`:
short-circuit conjunction over three in-place mutations, so exactly the
evaluated prefix of windows is written back. -/
def checkRateLimit (now : Nat) (limits : RLMap) (sessionId : String) : Bool × RLMap :=
  let userLimits := match limits sessionId with
    | some ul => ul
    | none => createUserLimits now
  let r1 := updateLimit now userLimits.minutely
  let ul1 := { userLimits with minutely := r1.2 }
  if r1.1 then
    let r2 := updateLimit now ul1.hourly
    let ul2 := { ul1 with hourly := r2.2 }
    if r2.1 then
      let r3 := updateLimit now ul2.daily
      let ul3 := { ul2 with daily := r3.2 }
      (r3.1, setLimits limits sessionId ul3)
    else (false, setLimits limits sessionId ul2)
  else (false, setLimits limits sessionId ul1)

/-- One `{remaining, resetIn}` pair of `getRateLimitInfo`. -/
structure WindowInfo where
  remaining : Nat
  resetIn : Nat
deriving DecidableEq

/-- The full return value of `getRateLimitInfo`. -/
structure RateLimitInfo where
  minutely : WindowInfo
  hourly : WindowInfo
  daily : WindowInfo
deriving DecidableEq

/-- One branch of `getRateLimitInfo`'s known-identity object:
`Math.max(0, max - current)` and `Math.max(0, resetTime - now)` are exactly
truncated natural subtraction. -/
def windowInfo (now : Nat) (l : RateLimit) : WindowInfo :=
  { remaining := l.max - l.current, resetIn := l.resetTime - now }

/-- Mirrors `RateLimiter.getRateLimitInfo(sessionId)`.  The method performs
no writes, so the embedding returns the map unchanged. -/
def getRateLimitInfo (now : Nat) (limits : RLMap) (sessionId : String) :
    RateLimitInfo × RLMap :=
  match limits sessionId with
  | none =>
    ({ minutely := { remaining := 15, resetIn := 0 }
       hourly := { remaining := 250, resetIn := 0 }
       daily := { remaining := 500, resetIn := 0 } }, limits)
  | some l =>
    ({ minutely := windowInfo now l.minutely
       hourly := windowInfo now l.hourly
       daily := windowInfo now l.daily }, limits)

/-! ## Retry wrapper (`GPTService.retryWithDelay`) -/

/-- Body of the `for (let attempt = 1; attempt <= retries; attempt++)` loop of
`retryWithDelay`, by structural recursion on the number of remaining loop
iterations (`retries + 1 - attempt`).  `fn attempt` models the awaited
operation on that attempt (`Except.error` = the promise rejects); the second
component counts how many times `fn` was invoked.  Exhausting the loop falls
through to `throw new Error("Unexpected error in retry logic")`. -/
def retryAux (fn : Nat → Except String α) (retries attempt : Nat) :
    Nat → Except String α × Nat
  | 0 => (Except.error "Unexpected error in retry logic", 0)
  | remaining + 1 =>
    match fn attempt with
    | Except.ok v => (Except.ok v, 1)
    | Except.error _ =>
      if attempt = retries then
        (Except.error "API request failed after multiple attempts", 1)
      else
        let r := retryAux fn retries (attempt + 1) remaining
        (r.1, r.2 + 1)

/-- Mirrors `GPTService.retryWithDelay(fn, retries, delay)`.  The inter-attempt
`setTimeout` delay has no observable effect on the result and is dropped. -/
def retryWithDelay (fn : Nat → Except String α) (retries : Nat) :
    Except String α × Nat :=
  retryAux fn retries 1 retries

/-! ## Streaming decoder (`GPTService.streamExploreContent` loop body) -/

/-- Entry of the parsed `topics` array (`{name, type, detail}`). -/
structure TopicIn where
  name : String
  type : String
  detail : String
deriving DecidableEq

/-- Entry of the parsed `questions` array (`{text, type, detail}`). -/
structure QuestionIn where
  text : String
  type : String
  detail : String
deriving DecidableEq

/-- Result of a successful `JSON.parse` of the structured buffer; `none` in a
field models an absent or non-array `topics`/`questions` property. -/
structure ParsedPayload where
  topics : Option (List TopicIn)
  questions : Option (List QuestionIn)
deriving DecidableEq

/-- Entry pushed onto `currentTopics` (`{topic, type, reason}`). -/
structure TopicOut where
  topic : String
  type : String
  reason : String
deriving DecidableEq

/-- Entry pushed onto `currentQuestions` (`{question, type, context}`). -/
structure QuestionOut where
  question : String
  type : String
  context : String
deriving DecidableEq

/-- One argument of an `onChunk` call; `none` models an omitted
(`undefined`) property. -/
structure Snapshot where
  text : String
  topics : Option (List TopicOut)
  questions : Option (List QuestionOut)
deriving DecidableEq

/-- The decoder's per-call state (`mainContent`, `jsonContent`,
`currentTopics`, `currentQuestions`, `isJsonSection`) plus the record of all
`onChunk` calls made so far. -/
structure StreamState where
  mainContent : String
  jsonContent : String
  currentTopics : List TopicOut
  currentQuestions : List QuestionOut
  isJsonSection : Bool
  emissions : List Snapshot
deriving DecidableEq

/-- The state at the top of `streamExploreContent`'s fragment loop. -/
def initStreamState : StreamState :=
  { mainContent := "", jsonContent := "", currentTopics := [],
    currentQuestions := [], isJsonSection := false, emissions := [] }

/-- Boolean substring occurrence on lists (JS `String.prototype.includes`). -/
def hasSubList [DecidableEq α] (sub : List α) : List α → Bool
  | [] => sub.isEmpty
  | a :: rest => sub.isPrefixOf (a :: rest) || hasSubList sub rest

/-- JS `s.includes(sub)`. -/
def containsSub (s sub : String) : Bool :=
  hasSubList sub.toList s.toList

/-- JS `s.trim()`: strip leading and trailing whitespace (kernel-executable
equivalent of `String.trim`). -/
def trimStr (s : String) : String :=
  ⟨((s.toList.dropWhile Char.isWhitespace).reverse.dropWhile Char.isWhitespace).reverse⟩

/-- JS `s.startsWith(pre)`. -/
def startsWithStr (s pre : String) : Bool :=
  pre.toList.isPrefixOf s.toList

/-- JS `s.endsWith(suf)`. -/
def endsWithStr (s suf : String) : Bool :=
  suf.toList.isSuffixOf s.toList

/-- One iteration of `parsed.topics.forEach(...)`: push
`{topic: name, type, reason: detail}` unless some existing entry already has
this `topic` (`!currentTopics.some(t => t.topic === topic.name)`). -/
def insertTopic (acc : List TopicOut) (t : TopicIn) : List TopicOut :=
  if acc.any fun e => e.topic == t.name then acc
  else acc ++ [{ topic := t.name, type := t.type, reason := t.detail }]

/-- One iteration of `parsed.questions.forEach(...)`. -/
def insertQuestion (acc : List QuestionOut) (q : QuestionIn) : List QuestionOut :=
  if acc.any fun e => e.question == q.text then acc
  else acc ++ [{ question := q.text, type := q.type, context := q.detail }]

/-- The object passed to `onChunk`: trimmed prose text, and the collections
only when nonempty (`currentTopics.length > 0 ? currentTopics : undefined`). -/
def mkSnapshot (mainContent : String) (topics : List TopicOut)
    (questions : List QuestionOut) : Snapshot :=
  { text := trimStr mainContent
    topics := if 0 < topics.length then some topics else none
    questions := if 0 < questions.length then some questions else none }

/-- Body of `for await (const chunk of result.stream)` in
`streamExploreContent`, for one fragment `content`.  A fragment containing
`'---'` only flips `isJsonSection` (the `continue` drops the fragment's
text entirely).  In the structured phase the fragment is appended to
`jsonContent`; a parse attempt is made only when the buffer contains a
closing brace and, after trimming, starts with an opening and ends with a
closing brace; a failed attempt (`parse _ = none`) is swallowed by the
`catch`.  In the prose phase the fragment is appended to `mainContent` and a
snapshot is emitted. -/
def streamStep (parse : String → Option ParsedPayload) (s : StreamState)
    (content : String) : StreamState :=
  if containsSub content "---" then
    { s with isJsonSection := true }
  else if s.isJsonSection then
    let jsonContent := s.jsonContent ++ content
    if containsSub jsonContent "\x7d" then
      let jsonStr := trimStr jsonContent
      if startsWithStr jsonStr "\x7b" && endsWithStr jsonStr "\x7d" then
        match parse jsonStr with
        | some parsed =>
          let newTopics := List.foldl insertTopic s.currentTopics (parsed.topics.getD [])
          let newQuestions :=
            List.foldl insertQuestion s.currentQuestions (parsed.questions.getD [])
          { s with jsonContent := jsonContent
                   currentTopics := newTopics
                   currentQuestions := newQuestions
                   emissions := s.emissions ++ [mkSnapshot s.mainContent newTopics newQuestions] }
        | none => { s with jsonContent := jsonContent }
      else { s with jsonContent := jsonContent }
    else { s with jsonContent := jsonContent }
  else
    let mainContent := s.mainContent ++ content
    { s with mainContent := mainContent
             emissions := s.emissions ++ [mkSnapshot mainContent s.currentTopics s.currentQuestions] }

/-- The whole fragment loop over an arriving fragment sequence. -/
def runStream (parse : String → Option ParsedPayload) (frags : List String) :
    StreamState :=
  frags.foldl (streamStep parse) initStreamState

/-! ## Option shuffling (`GPTService.shuffleOptionsAndAnswer`) -/

/-- JS simultaneous swap `[options[i], options[j]] = [options[j], options[i]]`
on a list; `d` is the out-of-bounds default of the total array read. -/
def swapAtL (d : α) (l : List α) (i j : Nat) : List α :=
  (l.set i (l.getD j d)).set j (l.getD i d)

/-- One iteration of the Fisher-Yates loop: swap positions `i` and
`j = rand i` and track the correct-answer index
(`if (i === correctIndex) correctIndex = j; else if (j === correctIndex) correctIndex = i`). -/
def fisherStep (d : α) (rand : Nat → Nat) (st : List α × Nat) (i : Nat) :
    List α × Nat :=
  let j := rand i
  (swapAtL d st.1 i j, if i = st.2 then j else if j = st.2 then i else st.2)

/-- Mirrors `GPTService.shuffleOptionsAndAnswer` on the `options` array and
`correctAnswer` index: the loop runs `i = length-1, ..., 1`, with
`rand i = Math.floor(Math.random() * (i + 1))` at index `i`. -/
def shuffleOptionsAndAnswer (d : α) (rand : Nat → Nat) (options : List α)
    (correctAnswer : Nat) : List α × Nat :=
  (List.range' 1 (options.length - 1)).reverse.foldl (fisherStep d rand)
    (options, correctAnswer)

/-! ## Rate limiter lemmas -/

/-- An unexpired window at or over its cap denies and is returned unchanged. -/
theorem updateLimit_denied (now : Nat) (l : RateLimit) (ht : now ≤ l.resetTime)
    (hc : l.max ≤ l.current) : updateLimit now l = (false, l) := by
  simp [updateLimit, resetIfExpired, Nat.not_lt.mpr ht, hc]

/-- An unexpired window under its cap approves and increments. -/
theorem updateLimit_approved (now : Nat) (l : RateLimit) (ht : now ≤ l.resetTime)
    (hc : l.current < l.max) :
    updateLimit now l = (true, { l with current := l.current + 1 }) := by
  simp [updateLimit, resetIfExpired, Nat.not_lt.mpr ht, Nat.not_le.mpr hc]

/-- An expired window with a positive cap is reset, approves, and ends at
`current = 1` with the advanced reset timestamp. -/
theorem updateLimit_expired (now : Nat) (l : RateLimit) (ht : l.resetTime < now)
    (hm : 0 < l.max) :
    updateLimit now l =
      (true, { l with current := 1, resetTime := now + l.windowMs }) := by
  simp [updateLimit, resetIfExpired, ht, Nat.not_le.mpr hm]

/-! ## C1 -/

/-- Claim C1 counterexample.  The claim says `checkRateLimit` is all-or-nothing: a
denied call modifies no window's used counter.  Concretely, for identity
`"u"` with fresh minute/hour windows and a daily window at its cap (all
unexpired at `now = 5000`), the call is denied, yet the minute and hour
counters were both incremented from 0 to 1 — a request blocked only by the
daily cap does consume minute and hour quota. -/
theorem c1_all_or_nothing_cex :
    (checkRateLimit 5000
        (fun s => if s = "u" then
          some ⟨⟨15, 60000, 0, 1000000⟩, ⟨250, 3600000, 0, 1000000⟩,
                ⟨500, 86400000, 500, 1000000⟩⟩ else none) "u").1 = false ∧
    ((checkRateLimit 5000
        (fun s => if s = "u" then
          some ⟨⟨15, 60000, 0, 1000000⟩, ⟨250, 3600000, 0, 1000000⟩,
                ⟨500, 86400000, 500, 1000000⟩⟩ else none) "u").2 "u") =
      some ⟨⟨15, 60000, 1, 1000000⟩, ⟨250, 3600000, 1, 1000000⟩,
            ⟨500, 86400000, 500, 1000000⟩⟩ := by
  constructor <;> rfl

/-- Claim C1 (amended): `checkRateLimit` is not all-or-nothing.  When all three
windows are unexpired, the minute and hour windows are under cap, and the
daily window is at or over cap, the call returns `false` but still
increments the minute and hour counters; the daily counter is unchanged. -/
theorem c1_amended_daily_block_consumes (now : Nat) (limits : RLMap)
    (sid : String) (ul : UserRateLimits)
    (hfind : limits sid = some ul)
    (hmt : now ≤ ul.minutely.resetTime) (hht : now ≤ ul.hourly.resetTime)
    (hdt : now ≤ ul.daily.resetTime)
    (hmc : ul.minutely.current < ul.minutely.max)
    (hhc : ul.hourly.current < ul.hourly.max)
    (hdc : ul.daily.max ≤ ul.daily.current) :
    (checkRateLimit now limits sid).1 = false ∧
    (checkRateLimit now limits sid).2 sid = some
      { ul with minutely := { ul.minutely with current := ul.minutely.current + 1 }
                hourly := { ul.hourly with current := ul.hourly.current + 1 } } := by
  have h1 := updateLimit_approved now ul.minutely hmt hmc
  have h2 := updateLimit_approved now ul.hourly hht hhc
  have h3 := updateLimit_denied now ul.daily hdt hdc
  simp [checkRateLimit, hfind, h1, h2, h3, setLimits]

/-- Witness for the amended C1 theorem at a concrete state. -/
theorem c1_amended_witness :
    (checkRateLimit 5000
        (fun s => if s = "u" then
          some ⟨⟨15, 60000, 0, 1000000⟩, ⟨250, 3600000, 0, 1000000⟩,
                ⟨500, 86400000, 500, 1000000⟩⟩ else none) "u").1 = false ∧
    (checkRateLimit 5000
        (fun s => if s = "u" then
          some ⟨⟨15, 60000, 0, 1000000⟩, ⟨250, 3600000, 0, 1000000⟩,
                ⟨500, 86400000, 500, 1000000⟩⟩ else none) "u").2 "u" =
      some ⟨⟨15, 60000, 1, 1000000⟩, ⟨250, 3600000, 1, 1000000⟩,
            ⟨500, 86400000, 500, 1000000⟩⟩ :=
  c1_amended_daily_block_consumes 5000 _ "u"
    ⟨⟨15, 60000, 0, 1000000⟩, ⟨250, 3600000, 0, 1000000⟩,
     ⟨500, 86400000, 500, 1000000⟩⟩ rfl (by decide) (by decide) (by decide)
    (by decide) (by decide) (by decide)

/-! ## C4 -/

/-- Claim C4: for an identity known to the limiter, if any one of its three windows
has `current` at or over its cap and that window is unexpired
(`now ≤ resetTime`), then the next `checkRateLimit` call is denied.  The
statement is for arbitrary caps, which covers in particular the fixed caps
15/250/500 installed by `createUserLimits`. -/
theorem c4_cap_denies (now : Nat) (limits : RLMap) (sid : String)
    (ul : UserRateLimits) (hfind : limits sid = some ul)
    (h : (ul.minutely.max ≤ ul.minutely.current ∧ now ≤ ul.minutely.resetTime) ∨
         (ul.hourly.max ≤ ul.hourly.current ∧ now ≤ ul.hourly.resetTime) ∨
         (ul.daily.max ≤ ul.daily.current ∧ now ≤ ul.daily.resetTime)) :
    (checkRateLimit now limits sid).1 = false := by
  rcases h with ⟨hc, ht⟩ | ⟨hc, ht⟩ | ⟨hc, ht⟩
  · simp [checkRateLimit, hfind, updateLimit_denied now ul.minutely ht hc]
  · have hden := updateLimit_denied now ul.hourly ht hc
    simp only [checkRateLimit, hfind]
    rcases h1 : updateLimit now ul.minutely with ⟨b1, m1⟩
    cases b1 <;> simp [hden]
  · have hden := updateLimit_denied now ul.daily ht hc
    simp only [checkRateLimit, hfind]
    rcases h1 : updateLimit now ul.minutely with ⟨b1, m1⟩
    cases b1 <;> simp
    rcases h2 : updateLimit now ul.hourly with ⟨b2, m2⟩
    cases b2 <;> simp [hden]

/-- Witness for C4: a daily window at its fixed cap 500 denies the call. -/
theorem c4_cap_denies_witness :
    (checkRateLimit 5000
        (fun s => if s = "u" then
          some ⟨⟨15, 60000, 3, 1000000⟩, ⟨250, 3600000, 3, 1000000⟩,
                ⟨500, 86400000, 500, 1000000⟩⟩ else none) "u").1 = false :=
  c4_cap_denies 5000 _ "u"
    ⟨⟨15, 60000, 3, 1000000⟩, ⟨250, 3600000, 3, 1000000⟩,
     ⟨500, 86400000, 500, 1000000⟩⟩ rfl
    (Or.inr (Or.inr ⟨by decide, by decide⟩))

/-- Whatever the outcome, `checkRateLimit` stores an entry for the identity
whose minute window is exactly the minute window returned by `updateLimit`:
the minute window is evaluated and committed on every call. -/
theorem checkRateLimit_minutely_committed (now : Nat) (limits : RLMap)
    (sid : String) (ul : UserRateLimits) (hfind : limits sid = some ul) :
    ∃ ul', (checkRateLimit now limits sid).2 sid = some ul' ∧
      ul'.minutely = (updateLimit now ul.minutely).2 := by
  rcases h1 : updateLimit now ul.minutely with ⟨b1, m1⟩
  cases b1
  · refine ⟨{ ul with minutely := m1 }, ?_, rfl⟩
    simp [checkRateLimit, hfind, h1, setLimits]
  · rcases h2 : updateLimit now ul.hourly with ⟨b2, m2⟩
    cases b2
    · refine ⟨{ ul with minutely := m1, hourly := m2 }, ?_, rfl⟩
      simp [checkRateLimit, hfind, h1, h2, setLimits]
    · rcases h3 : updateLimit now ul.daily with ⟨b3, m3⟩
      refine ⟨{ ul with minutely := m1, hourly := m2, daily := m3 }, ?_, rfl⟩
      simp [checkRateLimit, hfind, h1, h2, h3, setLimits]

/-! ## C5 -/

/-- Claim C5 counterexample.  The claim says that for every window whose reset
timestamp has passed, the next `checkRateLimit` call finds `current` reset to
0 and `resetTime` advanced.  Concretely, at `now = 5000` identity `"u"` has
an expired hourly window (`resetTime = 2000 < 5000`, `current = 250`) but a
minute window at its cap; the call short-circuits on the minute denial, and
afterwards the hourly window is completely untouched: `current` is still 250
(not 0) and `resetTime` still 2000 (not `5000 + 3600000`). -/
theorem c5_lazy_reset_cex :
    (2000 : Nat) < 5000 ∧
    (checkRateLimit 5000
        (fun s => if s = "u" then
          some ⟨⟨15, 60000, 15, 1000000⟩, ⟨250, 3600000, 250, 2000⟩,
                ⟨500, 86400000, 0, 1000000⟩⟩ else none) "u").1 = false ∧
    ((checkRateLimit 5000
        (fun s => if s = "u" then
          some ⟨⟨15, 60000, 15, 1000000⟩, ⟨250, 3600000, 250, 2000⟩,
                ⟨500, 86400000, 0, 1000000⟩⟩ else none) "u").2 "u") =
      some ⟨⟨15, 60000, 15, 1000000⟩, ⟨250, 3600000, 250, 2000⟩,
            ⟨500, 86400000, 0, 1000000⟩⟩ := by
  refine ⟨by decide, ?_, ?_⟩ <;> rfl

/-- Claim C5 (amended): a pending reset is applied only when the call actually
evaluates the window.  First conjunct: whenever `updateLimit` touches an
expired window, the reset step sets `current = 0` (regardless of prior
usage) and `resetTime = now + windowDurationMs` before the cap check.
Second conjunct: the minute window is always evaluated, so for a known
identity with an expired minute window of positive cap, the call leaves the
minute window with `resetTime = now + windowDurationMs` and `current = 1`
(the reset to 0 followed by the approved increment).  The hour and day
windows are only evaluated — hence only reset — if every earlier window
approved. -/
theorem c5_amended_reset_on_evaluation :
    (∀ (now : Nat) (l : RateLimit), l.resetTime < now →
      resetIfExpired now l = { l with current := 0, resetTime := now + l.windowMs }) ∧
    (∀ (now : Nat) (limits : RLMap) (sid : String) (ul : UserRateLimits),
      limits sid = some ul → ul.minutely.resetTime < now → 0 < ul.minutely.max →
      ∃ ul', (checkRateLimit now limits sid).2 sid = some ul' ∧
        ul'.minutely.current = 1 ∧
        ul'.minutely.resetTime = now + ul.minutely.windowMs) := by
  constructor
  · intro now l ht
    simp [resetIfExpired, ht]
  · intro now limits sid ul hfind ht hm
    obtain ⟨ul', hset, hmin⟩ := checkRateLimit_minutely_committed now limits sid ul hfind
    refine ⟨ul', hset, ?_, ?_⟩ <;>
      rw [hmin, updateLimit_expired now ul.minutely ht hm]

/-- Witness for the amended C5 theorem: known identity, expired minute window with prior
usage 15, cap 15; the call resets it and leaves `current = 1` with the
advanced timestamp. -/
theorem c5_amended_witness :
    ∃ ul', (checkRateLimit 5000
        (fun s => if s = "u" then
          some ⟨⟨15, 60000, 15, 2000⟩, ⟨250, 3600000, 0, 1000000⟩,
                ⟨500, 86400000, 0, 1000000⟩⟩ else none) "u").2 "u" = some ul' ∧
      ul'.minutely.current = 1 ∧ ul'.minutely.resetTime = 5000 + 60000 :=
  c5_amended_reset_on_evaluation.2 5000 _ "u"
    ⟨⟨15, 60000, 15, 2000⟩, ⟨250, 3600000, 0, 1000000⟩,
     ⟨500, 86400000, 0, 1000000⟩⟩ rfl (by decide) (by decide)

/-! ## C6 -/

/-- Claim C6: for an identity the limiter has never seen, `getRateLimitInfo`
returns the full caps (15/250/500) as `remaining` with `resetIn = 0` for
every granularity, and leaves the identity map untouched. -/
theorem c6_unknown_identity_full_caps (now : Nat) (limits : RLMap) (sid : String)
    (h : limits sid = none) :
    getRateLimitInfo now limits sid =
      ({ minutely := { remaining := 15, resetIn := 0 }
         hourly := { remaining := 250, resetIn := 0 }
         daily := { remaining := 500, resetIn := 0 } }, limits) := by
  simp [getRateLimitInfo, h]

/-- Witness for C6 on the empty map. -/
theorem c6_unknown_identity_witness :
    getRateLimitInfo 12345 (fun _ => none) "fresh" =
      ({ minutely := { remaining := 15, resetIn := 0 }
         hourly := { remaining := 250, resetIn := 0 }
         daily := { remaining := 500, resetIn := 0 } }, fun _ => none) :=
  c6_unknown_identity_full_caps 12345 (fun _ => none) "fresh" rfl

/-! ## C10 -/

/-- Claim C10: `getRateLimitInfo` never applies pending resets.  First conjunct:
for a known identity the call does not mutate the map, and for each window
whose reset timestamp has passed it reports `resetIn = 0` and `remaining`
computed from the stale `current` counter.  Second conjunct, at a concrete
state: the minute window is expired with `current = max = 15`, so `remaining`
is reported as 0, even though the very next `checkRateLimit` call resets
that window and succeeds. -/
theorem c10_stale_describe :
    (∀ (now : Nat) (limits : RLMap) (sid : String) (ul : UserRateLimits),
      limits sid = some ul →
      (getRateLimitInfo now limits sid).2 = limits ∧
      (ul.minutely.resetTime < now →
        (getRateLimitInfo now limits sid).1.minutely =
          { remaining := ul.minutely.max - ul.minutely.current, resetIn := 0 }) ∧
      (ul.hourly.resetTime < now →
        (getRateLimitInfo now limits sid).1.hourly =
          { remaining := ul.hourly.max - ul.hourly.current, resetIn := 0 }) ∧
      (ul.daily.resetTime < now →
        (getRateLimitInfo now limits sid).1.daily =
          { remaining := ul.daily.max - ul.daily.current, resetIn := 0 })) ∧
    ((getRateLimitInfo 5000
        (fun s => if s = "u" then
          some ⟨⟨15, 60000, 15, 2000⟩, ⟨250, 3600000, 0, 900000000⟩,
                ⟨500, 86400000, 0, 900000000⟩⟩ else none) "u").1.minutely.remaining = 0 ∧
     (checkRateLimit 5000
        (fun s => if s = "u" then
          some ⟨⟨15, 60000, 15, 2000⟩, ⟨250, 3600000, 0, 900000000⟩,
                ⟨500, 86400000, 0, 900000000⟩⟩ else none) "u").1 = true) := by
  refine ⟨?_, by decide, ?_⟩
  · intro now limits sid ul hfind
    refine ⟨by simp [getRateLimitInfo, hfind], ?_, ?_, ?_⟩ <;>
      intro ht <;>
      simp [getRateLimitInfo, hfind, windowInfo, Nat.sub_eq_zero_of_le (Nat.le_of_lt ht)]
  · rfl

/-- Witness for C10 at a concrete stale state. -/
theorem c10_stale_describe_witness :
    (getRateLimitInfo 5000
        (fun s => if s = "u" then
          some ⟨⟨15, 60000, 15, 2000⟩, ⟨250, 3600000, 0, 900000000⟩,
                ⟨500, 86400000, 0, 900000000⟩⟩ else none) "u").1.minutely =
      { remaining := 0, resetIn := 0 } :=
  (c10_stale_describe.1 5000 _ "u"
      ⟨⟨15, 60000, 15, 2000⟩, ⟨250, 3600000, 0, 900000000⟩,
       ⟨500, 86400000, 0, 900000000⟩⟩ rfl).2.1 (by decide)

/-! ## C3 -/

/-- Claim C3 counterexample.  The claim says that when every attempt fails,
`retryWithDelay` fails with a terminal error carrying the last underlying
error's message.  Concretely, with an operation that always rejects with
message `"boom"` and `retries = 3`, the wrapper does make exactly 3 attempts
but throws the fixed message `"API request failed after multiple attempts"`,
which does not contain the underlying `"boom"` at all (the underlying error
is only logged). -/
theorem c3_last_message_cex :
    retryWithDelay (fun _ => (Except.error "boom" : Except String Nat)) 3 =
      (Except.error "API request failed after multiple attempts", 3) ∧
    containsSub "API request failed after multiple attempts" "boom" = false := by
  constructor <;> rfl

/-- Claim C3 (amended): for every operation that fails on all attempts and every
`maxAttempts ≥ 1`, `retryWithDelay` invokes the operation exactly
`maxAttempts` times and then fails with the fixed terminal message
`"API request failed after multiple attempts"`; the last underlying error's
message is not propagated. -/
theorem c3_amended_exhaustion (fn : Nat → Except String α) (retries : Nat)
    (hr : 1 ≤ retries) (hfail : ∀ i, ∃ e, fn i = Except.error e) :
    retryWithDelay fn retries =
      (Except.error "API request failed after multiple attempts", retries) := by
  have key : ∀ (remaining attempt : Nat), attempt + remaining = retries + 1 →
      1 ≤ remaining → retryAux fn retries attempt remaining =
        (Except.error "API request failed after multiple attempts", remaining) := by
    intro remaining
    induction remaining with
    | zero => intro attempt _ h; omega
    | succ n ih =>
      intro attempt hsum _
      obtain ⟨e, he⟩ := hfail attempt
      by_cases hlast : attempt = retries
      · subst hlast
        have hn : n = 0 := by omega
        simp [retryAux, he, hn]
      · have hrec := ih (attempt + 1) (by omega) (by omega)
        simp [retryAux, he, hlast, hrec]
  have := key retries 1 (by omega) hr
  simpa [retryWithDelay] using this

/-- Witness for the amended C3 theorem: an always-failing operation with three attempts. -/
theorem c3_amended_witness :
    retryWithDelay (fun _ => (Except.error "transient" : Except String Nat)) 3 =
      (Except.error "API request failed after multiple attempts", 3) :=
  c3_amended_exhaustion (fun _ => (Except.error "transient" : Except String Nat)) 3
    (by decide) (fun _ => ⟨"transient", rfl⟩)

/-! ## C2 -/

/-- Claim C2 counterexample.  The claim says that for a fragment containing the
separator `'---'`, the text before the marker stays in the prose buffer and
the text after it is appended to the structured buffer.  Concretely, feeding
`["Hi", "a---b"]`, the decoder does transition to the structured state, but
the second fragment is dropped whole: the prose buffer is still `"Hi"` (the
`"a"` is lost) and the structured buffer is empty rather than `"b"`. -/
theorem c2_separator_split_cex :
    (runStream (fun _ => none) ["Hi", "a---b"]).isJsonSection = true ∧
    (runStream (fun _ => none) ["Hi", "a---b"]).mainContent = "Hi" ∧
    (runStream (fun _ => none) ["Hi", "a---b"]).jsonContent = "" ∧
    (runStream (fun _ => none) ["Hi", "a---b"]).jsonContent ≠ "b" := by
  refine ⟨rfl, rfl, rfl, by decide⟩

/-- Claim C2 (amended): when a fragment contains the literal `'---'` marker the
decoder transitions to the structured state at that fragment, but the entire
fragment is discarded (`continue`): nothing is appended to the prose buffer,
nothing is appended to the structured buffer, and no snapshot is emitted for
that fragment. -/
theorem c2_amended_separator_drops_fragment
    (parse : String → Option ParsedPayload) (s : StreamState) (content : String)
    (h : containsSub content "---" = true) :
    streamStep parse s content = { s with isJsonSection := true } := by
  simp [streamStep, h]

/-- Witness for the amended C2 theorem. -/
theorem c2_amended_witness :
    streamStep (fun _ => none)
      { mainContent := "Hi", jsonContent := "", currentTopics := [],
        currentQuestions := [], isJsonSection := false, emissions := [] }
      "a---b" =
    { mainContent := "Hi", jsonContent := "", currentTopics := [],
      currentQuestions := [], isJsonSection := true, emissions := [] } :=
  c2_amended_separator_drops_fragment (fun _ => none)
    { mainContent := "Hi", jsonContent := "", currentTopics := [],
      currentQuestions := [], isJsonSection := false, emissions := [] }
    "a---b" (by decide)

/-! ## Decoder lemmas -/

/-- A `topic` name already present leaves `currentTopics` unchanged. -/
theorem insertTopic_dup (acc : List TopicOut) (t : TopicIn)
    (h : (acc.any fun e => e.topic == t.name) = true) : insertTopic acc t = acc := by
  simp [insertTopic, h]

/-- A fresh `topic` name is appended at the end. -/
theorem insertTopic_fresh (acc : List TopicOut) (t : TopicIn)
    (h : (acc.any fun e => e.topic == t.name) = false) :
    insertTopic acc t = acc ++ [{ topic := t.name, type := t.type, reason := t.detail }] := by
  simp [insertTopic, h]

/-- A `question` text already present leaves `currentQuestions` unchanged. -/
theorem insertQuestion_dup (acc : List QuestionOut) (q : QuestionIn)
    (h : (acc.any fun e => e.question == q.text) = true) : insertQuestion acc q = acc := by
  simp [insertQuestion, h]

/-- A fresh `question` text is appended at the end. -/
theorem insertQuestion_fresh (acc : List QuestionOut) (q : QuestionIn)
    (h : (acc.any fun e => e.question == q.text) = false) :
    insertQuestion acc q =
      acc ++ [{ question := q.text, type := q.type, context := q.detail }] := by
  simp [insertQuestion, h]

/-- Inserting preserves distinctness of the primary `topic` field. -/
theorem insertTopic_nodup (acc : List TopicOut) (t : TopicIn)
    (h : (acc.map TopicOut.topic).Nodup) :
    ((insertTopic acc t).map TopicOut.topic).Nodup := by
  by_cases hany : (acc.any fun e => e.topic == t.name) = true
  · rwa [insertTopic_dup acc t hany]
  · rw [Bool.not_eq_true] at hany
    rw [insertTopic_fresh acc t hany]
    have hnm : t.name ∉ acc.map TopicOut.topic := by
      intro hmem
      obtain ⟨e, he, hetop⟩ := List.mem_map.mp hmem
      have hcon : (acc.any fun e => e.topic == t.name) = true :=
        List.any_eq_true.mpr ⟨e, he, beq_iff_eq.mpr hetop⟩
      rw [hany] at hcon
      exact Bool.false_ne_true hcon
    simp [List.nodup_append, h, List.disjoint_singleton, hnm]

/-- Inserting preserves distinctness of the primary `question` field. -/
theorem insertQuestion_nodup (acc : List QuestionOut) (q : QuestionIn)
    (h : (acc.map QuestionOut.question).Nodup) :
    ((insertQuestion acc q).map QuestionOut.question).Nodup := by
  by_cases hany : (acc.any fun e => e.question == q.text) = true
  · rwa [insertQuestion_dup acc q hany]
  · rw [Bool.not_eq_true] at hany
    rw [insertQuestion_fresh acc q hany]
    have hnm : q.text ∉ acc.map QuestionOut.question := by
      intro hmem
      obtain ⟨e, he, hetop⟩ := List.mem_map.mp hmem
      have hcon : (acc.any fun e => e.question == q.text) = true :=
        List.any_eq_true.mpr ⟨e, he, beq_iff_eq.mpr hetop⟩
      rw [hany] at hcon
      exact Bool.false_ne_true hcon
    simp [List.nodup_append, h, List.disjoint_singleton, hnm]

/-- Folding `insertTopic` over a parsed batch preserves name distinctness. -/
theorem foldl_insertTopic_nodup (ts : List TopicIn) :
    ∀ acc : List TopicOut, (acc.map TopicOut.topic).Nodup →
      ((List.foldl insertTopic acc ts).map TopicOut.topic).Nodup := by
  induction ts with
  | nil => intro acc h; exact h
  | cons t ts ih => intro acc h; exact ih _ (insertTopic_nodup acc t h)

/-- Folding `insertQuestion` over a parsed batch preserves text distinctness. -/
theorem foldl_insertQuestion_nodup (qs : List QuestionIn) :
    ∀ acc : List QuestionOut, (acc.map QuestionOut.question).Nodup →
      ((List.foldl insertQuestion acc qs).map QuestionOut.question).Nodup := by
  induction qs with
  | nil => intro acc h; exact h
  | cons q qs ih => intro acc h; exact ih _ (insertQuestion_nodup acc q h)

/-- Folding `insertTopic` only ever appends: the accumulator is a prefix. -/
theorem foldl_insertTopic_extends (ts : List TopicIn) :
    ∀ acc : List TopicOut, acc <+: List.foldl insertTopic acc ts := by
  induction ts with
  | nil => intro acc; exact List.prefix_rfl
  | cons t ts ih =>
    intro acc
    refine List.IsPrefix.trans ?_ (ih (insertTopic acc t))
    by_cases hany : (acc.any fun e => e.topic == t.name) = true
    · rw [insertTopic_dup acc t hany]
    · rw [Bool.not_eq_true] at hany
      rw [insertTopic_fresh acc t hany]
      exact List.prefix_append _ _

/-- Folding `insertQuestion` only ever appends: the accumulator is a prefix. -/
theorem foldl_insertQuestion_extends (qs : List QuestionIn) :
    ∀ acc : List QuestionOut, acc <+: List.foldl insertQuestion acc qs := by
  induction qs with
  | nil => intro acc; exact List.prefix_rfl
  | cons q qs ih =>
    intro acc
    refine List.IsPrefix.trans ?_ (ih (insertQuestion acc q))
    by_cases hany : (acc.any fun e => e.question == q.text) = true
    · rw [insertQuestion_dup acc q hany]
    · rw [Bool.not_eq_true] at hany
      rw [insertQuestion_fresh acc q hany]
      exact List.prefix_append _ _

/-- One decoder step either leaves both collections unchanged, or (exactly
when the guarded parse attempt succeeds) replaces them by an
`insertTopic`/`insertQuestion` fold over the parsed arrays. -/
theorem streamStep_collections_char (parse : String → Option ParsedPayload)
    (s : StreamState) (c : String) :
    ((streamStep parse s c).currentTopics = s.currentTopics ∧
     (streamStep parse s c).currentQuestions = s.currentQuestions) ∨
    (∃ p, parse (trimStr (s.jsonContent ++ c)) = some p ∧
      (streamStep parse s c).currentTopics =
        List.foldl insertTopic s.currentTopics (p.topics.getD []) ∧
      (streamStep parse s c).currentQuestions =
        List.foldl insertQuestion s.currentQuestions (p.questions.getD [])) := by
  by_cases h1 : containsSub c "---" = true
  · left; simp [streamStep, h1]
  · rw [Bool.not_eq_true] at h1
    cases hjs : s.isJsonSection with
    | false => left; simp [streamStep, h1, hjs]
    | true =>
      by_cases h3 : containsSub (s.jsonContent ++ c) "\x7d" = true
      · by_cases h4 : (startsWithStr (trimStr (s.jsonContent ++ c)) "\x7b" &&
            endsWithStr (trimStr (s.jsonContent ++ c)) "\x7d") = true
        · rcases hp : parse (trimStr (s.jsonContent ++ c)) with _ | p
          · left; simp [streamStep, h1, hjs, h3, h4, hp]
          · right; exact ⟨p, rfl, by simp [streamStep, h1, hjs, h3, h4, hp]⟩
        · rw [Bool.not_eq_true] at h4
          left; simp [streamStep, h1, hjs, h3, h4]
      · rw [Bool.not_eq_true] at h3
        left; simp [streamStep, h1, hjs, h3]

/-! ## C7 -/

/-- Claim C7: throughout one streaming call the decoder's collections hold at most
one entry per primary text field, in first-seen order.  First conjunct: after
any fragment sequence, the `topic` names of `currentTopics` and the
`question` texts of `currentQuestions` are pairwise distinct.  Second
conjunct: a decoder step only ever appends — the previous collections are a
prefix of the new ones, so earlier entries keep their first-seen positions.
Third and fourth conjuncts: a parsed entry whose primary text is already
present is dropped (no second entry), and a fresh one is appended at the
end. -/
theorem c7_dedup_first_seen :
    (∀ (parse : String → Option ParsedPayload) (frags : List String),
      (((runStream parse frags).currentTopics.map TopicOut.topic).Nodup ∧
       ((runStream parse frags).currentQuestions.map QuestionOut.question).Nodup)) ∧
    (∀ (parse : String → Option ParsedPayload) (s : StreamState) (content : String),
      s.currentTopics <+: (streamStep parse s content).currentTopics ∧
      s.currentQuestions <+: (streamStep parse s content).currentQuestions) ∧
    (∀ (acc : List TopicOut) (t : TopicIn),
      ((acc.any fun e => e.topic == t.name) = true → insertTopic acc t = acc) ∧
      ((acc.any fun e => e.topic == t.name) = false →
        insertTopic acc t =
          acc ++ [{ topic := t.name, type := t.type, reason := t.detail }])) ∧
    (∀ (acc : List QuestionOut) (q : QuestionIn),
      ((acc.any fun e => e.question == q.text) = true → insertQuestion acc q = acc) ∧
      ((acc.any fun e => e.question == q.text) = false →
        insertQuestion acc q =
          acc ++ [{ question := q.text, type := q.type, context := q.detail }])) := by
  refine ⟨?_, ?_, ?_, ?_⟩
  · intro parse frags
    suffices h : ∀ (s : StreamState),
        (s.currentTopics.map TopicOut.topic).Nodup →
        (s.currentQuestions.map QuestionOut.question).Nodup →
        (((frags.foldl (streamStep parse) s).currentTopics.map TopicOut.topic).Nodup ∧
         ((frags.foldl (streamStep parse) s).currentQuestions.map QuestionOut.question).Nodup) by
      exact h initStreamState (by simp [initStreamState]) (by simp [initStreamState])
    induction frags with
    | nil => intro s h1 h2; exact ⟨h1, h2⟩
    | cons c cs ih =>
      intro s h1 h2
      refine ih (streamStep parse s c) ?_ ?_ <;>
        rcases streamStep_collections_char parse s c with ⟨ht, hq⟩ | ⟨p, _, ht, hq⟩
      · rwa [ht]
      · rw [ht]; exact foldl_insertTopic_nodup _ _ h1
      · rwa [hq]
      · rw [hq]; exact foldl_insertQuestion_nodup _ _ h2
  · intro parse s content
    rcases streamStep_collections_char parse s content with ⟨ht, hq⟩ | ⟨p, _, ht, hq⟩
    · rw [ht, hq]; exact ⟨List.prefix_rfl, List.prefix_rfl⟩
    · rw [ht, hq]
      exact ⟨foldl_insertTopic_extends _ _, foldl_insertQuestion_extends _ _⟩
  · intro acc t
    exact ⟨insertTopic_dup acc t, insertTopic_fresh acc t⟩
  · intro acc q
    exact ⟨insertQuestion_dup acc q, insertQuestion_fresh acc q⟩

/-- Witness for C7: feeding the same topic name twice (across two successful
parses) yields a single entry, and the nodup/prefix parts at concrete
inputs. -/
theorem c7_dedup_witness :
    (((runStream
        (fun str => if str = "\x7ba\x7d" then
            some ⟨some [⟨"A", "prerequisite", "d"⟩], none⟩
          else if str = "\x7ba\x7db\x7d" then
            some ⟨some [⟨"A", "extension", "other"⟩, ⟨"B", "parallel", "e"⟩], none⟩
          else none)
        ["hi", "---", "\x7ba\x7d", "b\x7d"]).currentTopics.map TopicOut.topic).Nodup ∧
     ((runStream
        (fun str => if str = "\x7ba\x7d" then
            some ⟨some [⟨"A", "prerequisite", "d"⟩], none⟩
          else if str = "\x7ba\x7db\x7d" then
            some ⟨some [⟨"A", "extension", "other"⟩, ⟨"B", "parallel", "e"⟩], none⟩
          else none)
        ["hi", "---", "\x7ba\x7d", "b\x7d"]).currentQuestions.map
          QuestionOut.question).Nodup) ∧
    insertTopic [{ topic := "A", type := "prerequisite", reason := "d" }]
        ⟨"A", "extension", "other"⟩ =
      [{ topic := "A", type := "prerequisite", reason := "d" }] :=
  ⟨c7_dedup_first_seen.1 _ ["hi", "---", "\x7ba\x7d", "b\x7d"],
   (c7_dedup_first_seen.2.2.1
      [{ topic := "A", type := "prerequisite", reason := "d" }]
      ⟨"A", "extension", "other"⟩).1 (by decide)⟩

/-! ## C8 -/

/-- Claim C8: structured-region parse failures are swallowed and success is
emitted.  First conjunct: in the structured state, when the fragment has no
separator and the guarded parse attempt does not succeed (no closing brace
yet, brace guard fails, or `parse` fails), the step only extends the
structured buffer — no emission, no error, collections unchanged; the
decoder (a total function) never surfaces the failure.  Second conjunct:
when the guard passes and the accumulated buffer parses, the step emits
exactly the snapshot of the correctly parsed, deduplicated collections.
Third conjunct: under a parse oracle that never succeeds, any fragment
sequence ends with empty `topics`/`questions` collections (and no error). -/
theorem c8_parse_failures_swallowed :
    (∀ (parse : String → Option ParsedPayload) (s : StreamState) (content : String),
      s.isJsonSection = true → containsSub content "---" = false →
      (containsSub (s.jsonContent ++ content) "\x7d" = false ∨
       (startsWithStr (trimStr (s.jsonContent ++ content)) "\x7b" &&
        endsWithStr (trimStr (s.jsonContent ++ content)) "\x7d") = false ∨
       parse (trimStr (s.jsonContent ++ content)) = none) →
      streamStep parse s content = { s with jsonContent := s.jsonContent ++ content }) ∧
    (∀ (parse : String → Option ParsedPayload) (s : StreamState) (content : String)
       (p : ParsedPayload),
      s.isJsonSection = true → containsSub content "---" = false →
      containsSub (s.jsonContent ++ content) "\x7d" = true →
      (startsWithStr (trimStr (s.jsonContent ++ content)) "\x7b" &&
       endsWithStr (trimStr (s.jsonContent ++ content)) "\x7d") = true →
      parse (trimStr (s.jsonContent ++ content)) = some p →
      streamStep parse s content =
        { s with jsonContent := s.jsonContent ++ content
                 currentTopics := List.foldl insertTopic s.currentTopics (p.topics.getD [])
                 currentQuestions :=
                   List.foldl insertQuestion s.currentQuestions (p.questions.getD [])
                 emissions := s.emissions ++ [mkSnapshot s.mainContent
                   (List.foldl insertTopic s.currentTopics (p.topics.getD []))
                   (List.foldl insertQuestion s.currentQuestions (p.questions.getD []))] }) ∧
    (∀ (parse : String → Option ParsedPayload) (frags : List String),
      (∀ str, parse str = none) →
      (runStream parse frags).currentTopics = [] ∧
      (runStream parse frags).currentQuestions = []) := by
  refine ⟨?_, ?_, ?_⟩
  · intro parse s content hjs hsep hfail
    rcases hfail with h | h | h
    · simp [streamStep, hsep, hjs, h]
    · rcases h3 : containsSub (s.jsonContent ++ content) "\x7d" with _ | _
      · simp [streamStep, hsep, hjs, h3]
      · simp [streamStep, hsep, hjs, h3, h]
    · rcases h3 : containsSub (s.jsonContent ++ content) "\x7d" with _ | _
      · simp [streamStep, hsep, hjs, h3]
      · rcases h4 : (startsWithStr (trimStr (s.jsonContent ++ content)) "\x7b" &&
            endsWithStr (trimStr (s.jsonContent ++ content)) "\x7d") with _ | _
        · simp [streamStep, hsep, hjs, h3, h4]
        · simp [streamStep, hsep, hjs, h3, h4, h]
  · intro parse s content p hjs hsep h3 h4 hp
    simp [streamStep, hsep, hjs, h3, h4, hp]
  · intro parse frags hp
    suffices h : ∀ (s : StreamState),
        ((frags.foldl (streamStep parse) s).currentTopics = s.currentTopics ∧
         (frags.foldl (streamStep parse) s).currentQuestions = s.currentQuestions) by
      simpa [runStream, initStreamState] using h initStreamState
    induction frags with
    | nil => intro s; exact ⟨rfl, rfl⟩
    | cons c cs ih =>
      intro s
      have hstep := streamStep_collections_char parse s c
      rcases hstep with ⟨ht, hq⟩ | ⟨p, hps, _, _⟩
      · obtain ⟨iht, ihq⟩ := ih (streamStep parse s c)
        exact ⟨by rw [List.foldl_cons, iht, ht], by rw [List.foldl_cons, ihq, hq]⟩
      · rw [hp] at hps
        exact absurd hps (by simp)

/-- Witness for C8: a malformed buffer (`"\x7bnot json"`) is swallowed and, once
later fragments complete the buffer to something the oracle accepts, the
parsed snapshot is emitted; an always-failing oracle ends with empty
collections. -/
theorem c8_parse_failures_witness :
    streamStep (fun _ => none)
      { mainContent := "hi", jsonContent := "", currentTopics := [],
        currentQuestions := [], isJsonSection := true, emissions := [] }
      "\x7bnot json" =
      { mainContent := "hi", jsonContent := "\x7bnot json", currentTopics := [],
        currentQuestions := [], isJsonSection := true, emissions := [] } ∧
    streamStep (fun str => if str = "\x7bok\x7d" then
        some ⟨some [⟨"A", "prerequisite", "d"⟩], none⟩ else none)
      { mainContent := "hi", jsonContent := "\x7bok", currentTopics := [],
        currentQuestions := [], isJsonSection := true, emissions := [] }
      "\x7d" =
      { mainContent := "hi", jsonContent := "\x7bok\x7d",
        currentTopics := [{ topic := "A", type := "prerequisite", reason := "d" }],
        currentQuestions := [], isJsonSection := true,
        emissions := [⟨"hi",
          some [{ topic := "A", type := "prerequisite", reason := "d" }], none⟩] } ∧
    (runStream (fun _ => none) ["x", "---", "\x7bnot json", "\x7d"]).currentTopics = [] :=
  ⟨c8_parse_failures_swallowed.1 (fun _ => none) _ "\x7bnot json" rfl (by decide)
      (Or.inr (Or.inr rfl)),
   by
    have h := c8_parse_failures_swallowed.2.1
      (fun str => if str = "\x7bok\x7d" then
        some ⟨some [⟨"A", "prerequisite", "d"⟩], none⟩ else none)
      { mainContent := "hi", jsonContent := "\x7bok", currentTopics := [],
        currentQuestions := [], isJsonSection := true, emissions := [] }
      "\x7d" ⟨some [⟨"A", "prerequisite", "d"⟩], none⟩ rfl (by decide) (by decide)
      (by decide) (by decide)
    simpa [mkSnapshot] using h,
   (c8_parse_failures_swallowed.2.2 (fun _ => none)
      ["x", "---", "\x7bnot json", "\x7d"] (fun _ => rfl)).1⟩

/-! ## Shuffle lemmas -/

/-- Replacing position `m` by `c` and moving the old element `t.getD m` to
the front permutes `c :: t`. -/
theorem perm_cons_set (d c : α) :
    ∀ (t : List α) (m : Nat), m < t.length →
      (t.getD m d :: t.set m c).Perm (c :: t) := by
  intro t
  induction t with
  | nil => intro m hm; simp at hm
  | cons b t ih =>
    intro m hm
    cases m with
    | zero =>
      simp only [List.getD_cons_zero, List.set_cons_zero]
      exact List.Perm.swap c b t
    | succ n =>
      have hn : n < t.length := by simpa using hm
      simp only [List.getD_cons_succ, List.set_cons_succ]
      refine List.Perm.trans (List.Perm.swap b (t.getD n d) (t.set n c)) ?_
      exact List.Perm.trans (List.Perm.cons b (ih n hn)) (List.Perm.swap c b t)

/-- Setting keeps values at other positions. -/
theorem getD_set_ne (d a : α) (l : List α) {i j : Nat} (h : i ≠ j) :
    (l.set i a).getD j d = l.getD j d := by
  simp [List.getD_eq_getElem?_getD, List.getElem?_set_ne h]

/-- Setting writes the value at an in-bounds position. -/
theorem getD_set_eq (d a : α) (l : List α) {i : Nat} (h : i < l.length) :
    (l.set i a).getD i d = a := by
  simp [List.getD_eq_getElem?_getD, List.getElem?_set_self', h]

/-- The simultaneous swap reads both positions before writing. -/
theorem getD_swapAtL_self (d : α) (l : List α) (i j : Nat) (hj : j < l.length) :
    (swapAtL d l i j).getD j d = l.getD i d := by
  unfold swapAtL
  exact getD_set_eq d _ _ (by simpa using hj)

/-- Value at `i` after the swap, when `i ≠ j`. -/
theorem getD_swapAtL_other (d : α) (l : List α) {i j : Nat} (hij : i ≠ j)
    (hi : i < l.length) : (swapAtL d l i j).getD i d = l.getD j d := by
  unfold swapAtL
  rw [getD_set_ne d _ _ (Ne.symm hij)]
  exact getD_set_eq d _ _ hi

/-- Positions distinct from both swap indices are untouched. -/
theorem getD_swapAtL_untouched (d : α) (l : List α) {i j c : Nat}
    (hic : i ≠ c) (hjc : j ≠ c) : (swapAtL d l i j).getD c d = l.getD c d := by
  unfold swapAtL
  rw [getD_set_ne d _ _ hjc, getD_set_ne d _ _ hic]

/-- Swapping two in-bounds positions permutes the list. -/
theorem swapAtL_perm (d : α) :
    ∀ (l : List α) (i j : Nat), i < l.length → j < l.length →
      (swapAtL d l i j).Perm l := by
  intro l
  induction l with
  | nil => intro i j hi _; simp at hi
  | cons c t ih =>
    intro i j hi hj
    cases i with
    | zero =>
      cases j with
      | zero => simp [swapAtL]
      | succ n =>
        have hn : n < t.length := by simpa using hj
        simp only [swapAtL, List.getD_cons_zero, List.getD_cons_succ,
          List.set_cons_zero, List.set_cons_succ]
        exact perm_cons_set d c t n hn
    | succ m =>
      cases j with
      | zero =>
        have hm : m < t.length := by simpa using hi
        simp only [swapAtL, List.getD_cons_zero, List.getD_cons_succ,
          List.set_cons_zero, List.set_cons_succ]
        exact perm_cons_set d c t m hm
      | succ n =>
        have hm : m < t.length := by simpa using hi
        have hn : n < t.length := by simpa using hj
        simp only [swapAtL, List.getD_cons_succ, List.set_cons_succ]
        exact List.Perm.cons c (ih m n hm hn)

/-- The swap does not change the length. -/
theorem swapAtL_length (d : α) (l : List α) (i j : Nat) :
    (swapAtL d l i j).length = l.length := by
  simp [swapAtL]

/-- The tracked index follows the swapped correct answer: the value at the
tracked position after the swap is the value at the old position before. -/
theorem getD_swapAtL_track (d : α) (l : List α) {i j c : Nat}
    (hi : i < l.length) (hj : j < l.length) (hc : c < l.length) :
    (swapAtL d l i j).getD (if i = c then j else if j = c then i else c) d =
      l.getD c d := by
  by_cases hic : i = c
  · subst hic
    simp only [if_pos rfl]
    exact getD_swapAtL_self d l _ _ hj
  · rw [if_neg hic]
    by_cases hjc : j = c
    · subst hjc
      rw [if_pos rfl]
      exact getD_swapAtL_other d l hic hi
    · rw [if_neg hjc]
      exact getD_swapAtL_untouched d l hic hjc

/-- Invariant of the Fisher-Yates fold: along any list of in-bounds loop
indices, the options stay a permutation of the original, the tracked index
stays in bounds, and the value at the tracked index is preserved. -/
theorem fisher_foldl_inv (d : α) (rand : Nat → Nat)
    (orig : List α) (hrand : ∀ i, rand i ≤ i) :
    ∀ (idxs : List Nat) (l : List α) (c : Nat),
      (∀ i ∈ idxs, i < orig.length) → l.Perm orig → c < orig.length →
      ((idxs.foldl (fisherStep d rand) (l, c)).1.Perm orig ∧
       (idxs.foldl (fisherStep d rand) (l, c)).2 < orig.length ∧
       (idxs.foldl (fisherStep d rand) (l, c)).1.getD
         (idxs.foldl (fisherStep d rand) (l, c)).2 d = l.getD c d) := by
  intro idxs
  induction idxs with
  | nil => intro l c _ hperm hc; exact ⟨hperm, hc, rfl⟩
  | cons i idxs ih =>
    intro l c hbound hperm hc
    have hlen : l.length = orig.length := hperm.length_eq
    have hi : i < l.length := by rw [hlen]; exact hbound i (List.mem_cons_self i idxs)
    have hj : rand i < l.length := Nat.lt_of_le_of_lt (hrand i) hi
    have hcl : c < l.length := by rw [hlen]; exact hc
    have hstep : fisherStep d rand (l, c) i =
        (swapAtL d l i (rand i),
         if i = c then rand i else if rand i = c then i else c) := rfl
    rw [List.foldl_cons, hstep]
    have hperm' : (swapAtL d l i (rand i)).Perm orig :=
      (swapAtL_perm d l i (rand i) hi hj).trans hperm
    have hc' : (if i = c then rand i else if rand i = c then i else c) < orig.length := by
      split_ifs <;> rw [← hlen] <;> first | exact hj | exact hi | exact hcl
    obtain ⟨p1, p2, p3⟩ := ih (swapAtL d l i (rand i))
      (if i = c then rand i else if rand i = c then i else c)
      (fun x hx => hbound x (List.mem_cons_of_mem i hx)) hperm' hc'
    exact ⟨p1, p2, by rw [p3, getD_swapAtL_track d l hi hj hcl]⟩

/-! ## C9 -/

/-- Claim C9: `shuffleOptionsAndAnswer` returns a permutation of the input options
and preserves the correct answer's text: for every random sequence
(`rand i ≤ i`, as guaranteed by `Math.floor(Math.random() * (i + 1))`) and
every in-bounds input `correctAnswer`, the returned options are a
permutation of the input options, the returned index is in bounds, and the
option at the returned index equals the option at the input index. -/
theorem c9_shuffle_preserves_answer (d : α) (rand : Nat → Nat)
    (options : List α) (correctAnswer : Nat)
    (hrand : ∀ i, rand i ≤ i) (hc : correctAnswer < options.length) :
    (shuffleOptionsAndAnswer d rand options correctAnswer).1.Perm options ∧
    (shuffleOptionsAndAnswer d rand options correctAnswer).2 < options.length ∧
    (shuffleOptionsAndAnswer d rand options correctAnswer).1.getD
      (shuffleOptionsAndAnswer d rand options correctAnswer).2 d =
      options.getD correctAnswer d := by
  have hbound : ∀ i ∈ (List.range' 1 (options.length - 1)).reverse,
      i < options.length := by
    intro i hi
    rw [List.mem_reverse, List.mem_range'] at hi
    omega
  exact fisher_foldl_inv d rand options hrand _ options correctAnswer hbound
    (List.Perm.refl options) hc

/-- Witness for C9 on a concrete four-option question. -/
theorem c9_shuffle_witness :
    (shuffleOptionsAndAnswer "" (fun i => i / 2) ["A", "B", "C", "D"] 2).1.Perm
      ["A", "B", "C", "D"] ∧
    (shuffleOptionsAndAnswer "" (fun i => i / 2) ["A", "B", "C", "D"] 2).2 < 4 ∧
    (shuffleOptionsAndAnswer "" (fun i => i / 2) ["A", "B", "C", "D"] 2).1.getD
      (shuffleOptionsAndAnswer "" (fun i => i / 2) ["A", "B", "C", "D"] 2).2 "" = "C" :=
  c9_shuffle_preserves_answer "" (fun i => i / 2) ["A", "B", "C", "D"] 2
    (fun i => Nat.div_le_self i 2) (by decide)

end Edu
